import Mathlib

/-!
# CourseSummarizer — verification of the session/store core

Shallow embedding of `src/main.py` (Streamlit course-summarizer app backed by
a Supabase table). Pure data is embedded directly; the Streamlit button
handlers become state transformers on an explicit session-state record; the
remote table becomes a list of rows with upsert/select/delete semantics
matching the calls made in the source. The external `json` library is
embedded as a concrete serializer/parser for the one data shape the program
stores (a list of role/content message records).
-/

/-- A chat message as kept in `st.session_state.messages`:
a dict with string fields `role` and `content`. -/
structure Msg where
  role : String
  content : String
deriving DecidableEq, Repr

/-! ## The JSON-string boundary

`save_to_db` stores `json.dumps(messages)` (src/main.py line 30); the Load
Course handler runs `json.loads` when the stored value is a string
(lines 161-165). We embed the `json` library's behaviour on this data shape:
`json_dumps` produces exactly the text Python's `json.dumps` produces for
`[ ... dicts with keys "role", "content" ... ]` (default separators, keys in
insertion order), and `json_loads` parses that format back. -/

/-- Opening brace character of a JSON object. -/
def lbrace : Char := Char.ofNat 123

/-- Closing brace character of a JSON object. -/
def rbrace : Char := Char.ofNat 125

/-- JSON string escaping of a single character: quote and backslash get a
backslash prefix, everything else is emitted as-is. -/
def escapeChar (c : Char) : List Char :=
  if c = '"' ∨ c = '\\' then ['\\', c] else [c]

/-- JSON string escaping of a whole string (body only, no quotes). -/
def escStr (s : String) : List Char :=
  s.data.flatMap escapeChar

/-- The literal opening a serialized message object, up to and including the
opening quote of the role value. -/
def litMsgOpen : List Char := "\x7b\"role\": \"".data

/-- The literal between the role value's closing quote and the content
value's opening quote. -/
def litMid : List Char := ", \"content\": \"".data

/-- Serialization of one message record, exactly as Python's `json.dumps`
renders the dict (keys in insertion order, `": "` separator). -/
def dumpMsg (m : Msg) : List Char :=
  litMsgOpen ++ (escStr m.role ++ ('"' :: (litMid ++ (escStr m.content ++ ('"' :: [rbrace])))))

/-- Serialization of the tail of a message list: item separator `", "`
before each further element, closing `]` at the end. -/
def dumpTail : List Msg → List Char
  | [] => [']']
  | m :: ms => ',' :: (' ' :: (dumpMsg m ++ dumpTail ms))

/-- Serialization of a whole message list. -/
def dumpMsgs : List Msg → List Char
  | [] => "[]".data
  | m :: ms => '[' :: (dumpMsg m ++ dumpTail ms)

/-- `json.dumps` on a message list. -/
def json_dumps (l : List Msg) : String := String.mk (dumpMsgs l)

/-- Consume an expected literal from the front of the input. -/
def stripLit : List Char → List Char → Option (List Char)
  | [], s => some s
  | _ :: _, [] => none
  | p :: ps, c :: cs => if c = p then stripLit ps cs else none

/-- Parse a JSON string body up to and including its closing quote,
undoing the backslash escapes; returns the decoded characters and the
remaining input. -/
def parseStringBody : List Char → Option (List Char × List Char)
  | [] => none
  | c :: rest =>
    if c = '"' then some ([], rest)
    else if c = '\\' then
      match rest with
      | [] => none
      | d :: rest2 =>
        match parseStringBody rest2 with
        | none => none
        | some (cs, r) => some (d :: cs, r)
    else
      match parseStringBody rest with
      | none => none
      | some (cs, r) => some (c :: cs, r)

/-- Parse one serialized message object; returns the message and the
remaining input. -/
def parseMsg (s : List Char) : Option (Msg × List Char) :=
  match stripLit litMsgOpen s with
  | none => none
  | some s1 =>
    match parseStringBody s1 with
    | none => none
    | some (r, s2) =>
      match stripLit litMid s2 with
      | none => none
      | some s3 =>
        match parseStringBody s3 with
        | none => none
        | some (co, s4) =>
          match s4 with
          | [] => none
          | c :: s5 => if c = rbrace then some (⟨String.mk r, String.mk co⟩, s5) else none

/-- Parse the input following a message element: either the closing `]`
or a `", "` separator and a further element. Fuel bounds the recursion;
one unit is spent per element, so input length is always enough. -/
def parseAfterMsg : Nat → List Char → Option (List Msg × List Char)
  | _, [] => none
  | fuel, c :: rest =>
    if c = ']' then some ([], rest)
    else
      match fuel with
      | 0 => none
      | fuel' + 1 =>
        match stripLit (", ".data) (c :: rest) with
        | none => none
        | some s1 =>
          match parseMsg s1 with
          | none => none
          | some (m, s2) =>
            match parseAfterMsg fuel' s2 with
            | none => none
            | some (ms, s3) => some (m :: ms, s3)

/-! ### Round-trip: the parser inverts the serializer -/

theorem stripLit_append (pre rest : List Char) :
    stripLit pre (pre ++ rest) = some rest := by
  induction pre with
  | nil => rfl
  | cons p ps ih => simp [stripLit, ih]

theorem parseStringBody_flatMap_escape (l rest : List Char) :
    parseStringBody (l.flatMap escapeChar ++ ('"' :: rest)) = some (l, rest) := by
  induction l with
  | nil =>
    rw [List.flatMap_nil, List.nil_append, parseStringBody.eq_def]
    simp
  | cons c cs ih =>
    by_cases h : c = '"' ∨ c = '\\'
    · have hesc : escapeChar c = ['\\', c] := by simp [escapeChar, h]
      simp only [List.flatMap_cons, hesc, List.cons_append, List.append_assoc]
      rw [parseStringBody.eq_def]
      simp only [List.cons_append] at ih
      simp [ih]
    · push_neg at h
      have hesc : escapeChar c = [c] := by
        simp [escapeChar, h.1, h.2]
      simp only [List.flatMap_cons, hesc, List.cons_append]
      rw [parseStringBody.eq_def]
      simp only [List.cons_append] at ih
      simp [h.1, h.2, ih]

theorem parseStringBody_escStr (s : String) (rest : List Char) :
    parseStringBody (escStr s ++ ('"' :: rest)) = some (s.data, rest) :=
  parseStringBody_flatMap_escape s.data rest

theorem parseMsg_dumpMsg (m : Msg) (rest : List Char) :
    parseMsg (dumpMsg m ++ rest) = some (m, rest) := by
  simp only [dumpMsg, List.append_assoc, List.cons_append]
  simp only [parseMsg, stripLit_append, parseStringBody_escStr]
  rfl

theorem parseAfterMsg_dumpTail (ms : List Msg) (rest : List Char) :
    ∀ fuel, ms.length ≤ fuel →
      parseAfterMsg fuel (dumpTail ms ++ rest) = some (ms, rest) := by
  induction ms with
  | nil =>
    intro fuel _
    rw [show dumpTail [] ++ rest = ']' :: rest from rfl, parseAfterMsg.eq_def]
    simp
  | cons m ms ih =>
    intro fuel hfuel
    cases fuel with
    | zero => simp at hfuel
    | succ fuel' =>
      have hshape : dumpTail (m :: ms) ++ rest =
          ',' :: (' ' :: (dumpMsg m ++ (dumpTail ms ++ rest))) := by
        simp [dumpTail]
      rw [hshape, parseAfterMsg.eq_def]
      have hcomma : (',' : Char) = ']' ↔ False := by simp
      have hstrip : stripLit (", ".data) (',' :: (' ' :: (dumpMsg m ++ (dumpTail ms ++ rest)))) =
          some (dumpMsg m ++ (dumpTail ms ++ rest)) := by
        rw [show (", ".data = [',', ' ']) from rfl]
        simp [stripLit]
      simp only [hcomma, if_false, hstrip, parseMsg_dumpMsg,
        ih fuel' (Nat.le_of_succ_le_succ hfuel)]

/-- `json.loads` on the message-list format: accepts exactly a full
serialized message list and nothing trailing. -/
def json_loads (s : String) : Option (List Msg) :=
  match s.data with
  | c0 :: (c1 :: s2) =>
    if c0 = '[' then
      if c1 = ']' then (if s2 = [] then some [] else none)
      else
        match parseMsg (c1 :: s2) with
        | none => none
        | some (m, s3) =>
          match parseAfterMsg s3.length s3 with
          | none => none
          | some (ms, s4) => if s4 = [] then some (m :: ms) else none
    else none
  | _ => none

theorem litMsgOpen_cons : litMsgOpen = lbrace :: "\"role\": \"".data := by decide

theorem dumpMsg_append_cons (m : Msg) (r : List Char) :
    dumpMsg m ++ r = lbrace ::
      ("\"role\": \"".data ++
        ((escStr m.role ++ ('"' :: (litMid ++ (escStr m.content ++ ('"' :: [rbrace]))))) ++ r)) := by
  simp [dumpMsg, litMsgOpen_cons, List.append_assoc]

theorem length_dumpTail (ms : List Msg) : ms.length ≤ (dumpTail ms).length := by
  induction ms with
  | nil => simp [dumpTail]
  | cons m ms ih => simp [dumpTail]; omega

/-- The serializer/parser pair embedded from the `json` library round-trips
on every message list: `json.loads(json.dumps(messages)) == messages`. -/
theorem json_loads_dumps (l : List Msg) : json_loads (json_dumps l) = some l := by
  cases l with
  | nil => rfl
  | cons m ms =>
    have h1 : (json_dumps (m :: ms)).data = '[' :: (lbrace ::
        ("\"role\": \"".data ++
          ((escStr m.role ++ ('"' :: (litMid ++ (escStr m.content ++ ('"' :: [rbrace]))))) ++
            dumpTail ms))) := by
      show ('[' :: (dumpMsg m ++ dumpTail ms)) = _
      rw [dumpMsg_append_cons]
    have hlb : (lbrace = ']') = False := by simp [lbrace]
    rw [json_loads.eq_def, h1]
    simp only [hlb, if_false, if_pos rfl]
    rw [← dumpMsg_append_cons m (dumpTail ms), parseMsg_dumpMsg]
    have h3 : parseAfterMsg (dumpTail ms).length (dumpTail ms) = some (ms, []) := by
      have h := parseAfterMsg_dumpTail ms [] (dumpTail ms).length (length_dumpTail ms)
      simpa using h
    simp [h3]

/-! ## The remote-table store

The `Courses` table is a list of rows. `created_at` is the backend's
insert timestamp (Supabase default column, not part of the upsert payload,
hence preserved when an upsert updates an existing row); the retrieval
query orders by it descending with limit 1. -/

/-- The wire value of the `messages` column: the remote row may hold a JSON
string (what `save_to_db` writes) or an already-decoded list (the Load
Course handler accepts both shapes). -/
inductive RawMessages where
  | str (s : String)
  | list (l : List Msg)
deriving DecidableEq

/-- One row of the `Courses` table. -/
structure Row where
  course_name : String
  summary : String
  messages : RawMessages
  date : String
  created_at : Nat
deriving DecidableEq

/-- `upsert(data, on_conflict="course_name")`: if a row with the same
`course_name` exists it is updated in place (payload columns overwritten,
`created_at` kept); otherwise the row is inserted. -/
def upsertRow (store : List Row) (row : Row) : List Row :=
  if store.any (fun r => r.course_name == row.course_name) then
    store.map (fun r =>
      if r.course_name == row.course_name then { row with created_at := r.created_at } else r)
  else store ++ [row]

/-- `save_to_db(name, summary, messages)` (src/main.py lines 26-36): builds
the payload with `messages` JSON-string encoded and today's date, upserts it,
and reports success when the store returns the affected row (a successful
upsert always does). -/
def save_to_db (store : List Row) (name summary : String) (messages : List Msg)
    (today : String) (now : Nat) : List Row × Bool :=
  let data : Row := ⟨name, summary, .str (json_dumps messages), today, now⟩
  (upsertRow store data, true)

/-- `retrieve_all_courses()` (lines 39-47): select the `course_name` column
of every row and return the distinct names. -/
def retrieve_all_courses (store : List Row) : List String :=
  (store.map (fun r => r.course_name)).dedup

/-- The row `order("created_at", desc=True).limit(1)` selects: one with the
greatest `created_at` (first such row on ties), `none` on an empty selection. -/
def latestBy : List Row → Option Row
  | [] => none
  | r :: rs =>
    match latestBy rs with
    | none => some r
    | some b => if r.created_at < b.created_at then some b else some r

/-- `retrieve_course_data(course_name)` (lines 50-64): select the rows whose
`course_name` matches, most recent first, and return the first or `None`. -/
def retrieve_course_data (store : List Row) (name : String) : Option Row :=
  latestBy (store.filter (fun r => r.course_name == name))

/-- `delete_course_data(course_name)` (lines 67-79): remove every row whose
`course_name` matches; the response carries data exactly when something
matched (driving the success/error toast). -/
def delete_course_data (store : List Row) (name : String) : List Row × Bool :=
  (store.filter (fun r => !(r.course_name == name)),
   store.any (fun r => r.course_name == name))

/-! ## Session state and the button handlers -/

/-- One part of a Completion Client history entry: a dict with a `text`
field. -/
structure HistPart where
  text : String
deriving DecidableEq

/-- One Completion Client history entry: a role and a parts list. -/
structure HMsg where
  role : String
  parts : List HistPart
deriving DecidableEq

/-- The per-session Streamlit state the handlers touch: `messages`,
`summary`, and the chat session's internal turn history. -/
structure SessionState where
  messages : List Msg
  summary : String
  chat_history : List HMsg
deriving DecidableEq

/-- The role mapping applied when building Completion Client history from
stored messages (line 170): `"user"` stays `"user"`, everything else
becomes `"model"`. -/
def roleToClient (r : String) : String := if r = "user" then "user" else "model"

/-- The loop at lines 168-173: stored messages become client history
entries with mapped role and a single text part holding the content. -/
def toClientHistory (msgs : List Msg) : List HMsg :=
  msgs.map (fun m => ⟨roleToClient m.role, [⟨m.content⟩]⟩)

/-- Modelled from the spec: the inverse role mapping, "back to `assistant`
when stored for display" (§4.1); this direction is not a separate function
in src/main.py (the handlers always append display messages with literal
`"user"`/`"assistant"` roles), so it is taken from the spec's words:
`"user"` stays `"user"`, everything else becomes `"assistant"`. -/
def roleToStore (r : String) : String := if r = "user" then "user" else "assistant"

/-- Modelled from the spec: converting Completion Client history entries
back into display-format messages, role-mapped with `roleToStore` and the
content taken from the entry's single text part. -/
def toStoredTranscript (h : List HMsg) : List Msg :=
  h.map (fun e => ⟨roleToStore e.role, (e.parts.headD ⟨""⟩).text⟩)

/-- Outcome of a Load Course click. -/
inductive LoadResult where
  | absent
  | loaded
  | decodeError
deriving DecidableEq

/-- The conditional at lines 161-165: a string value is JSON-decoded, a
list value is used directly. -/
def decodeMessages : RawMessages → Option (List Msg)
  | .str s => json_loads s
  | .list l => some l

/-- The Load Course handler (lines 150-180): fetch the course's row; if
absent nothing happens; otherwise overwrite `summary`, decode and overwrite
`messages` (string or list shape), and rebuild the chat session seeded with
the role-mapped history. A `json.loads` failure would raise after `summary`
was already assigned, which the `decodeError` arm records. -/
def loadCourse (store : List Row) (selected : String) (st : SessionState) :
    SessionState × LoadResult :=
  match retrieve_course_data store selected with
  | none => (st, .absent)
  | some row =>
    let st1 := { st with summary := row.summary }
    match decodeMessages row.messages with
    | none => (st1, .decodeError)
    | some msgs =>
      ({ st1 with messages := msgs, chat_history := toClientHistory msgs }, .loaded)

/-- UI feedback of the Save Course handler. -/
inductive SaveNote where
  | info
  | warning
deriving DecidableEq

/-- The Save Course handler (lines 126-131): it always calls `save_to_db`
with the session's `summary` and `messages` — there is no emptiness check —
then shows an info or warning toast from the returned flag. -/
def saveCourseClick (store : List Row) (course_name : String) (st : SessionState)
    (today : String) (now : Nat) : List Row × SaveNote :=
  let r := save_to_db store course_name st.summary st.messages today now
  (r.1, if r.2 then .info else .warning)

/-- The Delete Course handler (lines 182-189): delete the selected course's
rows, then clear the session's `summary` and `messages` unconditionally.
The active course name from the sidebar text input is in scope but never
consulted. -/
def deleteCourseClick (store : List Row) (activeCourse selected : String)
    (st : SessionState) : List Row × SessionState :=
  let _ := activeCourse
  let r := delete_course_data store selected
  (r.1, { st with summary := "", messages := [] })

/-- The fixed instruction prompt (lines 17-22), byte-for-byte. -/
def PROMPT : String :=
  "\nPlease summarize this pdf lesson into concise bullet points, highlighting the key concepts and important details. \nThe summary should be clear and easy to understand, suitable for quick review and study.\nIf possible, split up by lesson sections, and include any important formulas, definitions, or examples mentioned in the text.\nMention how to solve any problems or exercises included in the lesson, and provide step-by-step explanations if applicable.\n"

/-- The extraction loop of the Summarize handler (lines 235-241): a file is
a list of page texts; `text` accumulates every page of every file in order,
a newline appended after each page. -/
def extractAllText (files : List (List String)) : String :=
  files.foldl (fun acc pages => pages.foldl (fun t p => t ++ (p ++ "\n")) acc) ""

/-- What a Summarize click produces: the updated session state, the single
prompt sent to the Completion Client, and the file writes the handler
performs. -/
structure SummarizeOutcome where
  state : SessionState
  promptSent : String
  writes : List (String × String)
deriving DecidableEq

/-- The Summarize handler (lines 232-249): extract all text, send
`text + PROMPT` as one message through the chat session (which appends the
user turn and the model reply to its internal history), and overwrite
`summary` with the response. `messages` is not touched and no file is
written. `respond` is the Completion Client oracle. -/
def summarizeClick (files : List (List String)) (respond : String → String)
    (st : SessionState) : SummarizeOutcome :=
  let text := extractAllText files
  let prompt := text ++ PROMPT
  let resp := respond prompt
  { state := { st with
      summary := resp,
      chat_history := st.chat_history ++ [⟨"user", [⟨prompt⟩]⟩, ⟨"model", [⟨resp⟩]⟩] },
    promptSent := prompt,
    writes := [] }

/-- The chat input handler (lines 214-224): append the user message, send
it through the chat session, append the assistant reply. -/
def chatSend (prompt : String) (respond : String → String) (st : SessionState) :
    SessionState :=
  let resp := respond prompt
  { st with
    messages := st.messages ++ [⟨"user", prompt⟩, ⟨"assistant", resp⟩],
    chat_history := st.chat_history ++ [⟨"user", [⟨prompt⟩]⟩, ⟨"model", [⟨resp⟩]⟩] }

/-- Startup (lines 94-99 and 110-113): the chat session is seeded with the
decoded contents of `history.json`, or an empty history when the file is
absent. The argument is the already-decoded file, `none` when missing. -/
def initChatHistory (fileContent : Option (List HMsg)) : List HMsg :=
  fileContent.getD []

/-! ## Store lemmas -/

theorem latestBy_cons (a : Row) (t : List Row) :
    latestBy (a :: t) = match latestBy t with
      | none => some a
      | some b => if a.created_at < b.created_at then some b else some a := rfl

theorem latestBy_mem {l : List Row} {r : Row} (h : latestBy l = some r) : r ∈ l := by
  induction l with
  | nil => simp [latestBy] at h
  | cons a t ih =>
    rw [latestBy_cons] at h
    cases hl : latestBy t with
    | none =>
      rw [hl] at h
      have h' : some a = some r := h
      simp at h'
      simp [h']
    | some b =>
      rw [hl] at h
      have h' : (if a.created_at < b.created_at then some b else some a) = some r := h
      by_cases hc : a.created_at < b.created_at
      · rw [if_pos hc] at h'
        simp at h'
        exact List.mem_cons_of_mem a (ih (h' ▸ hl))
      · rw [if_neg hc] at h'
        simp at h'
        simp [h']

theorem latestBy_cons_isSome (a : Row) (t : List Row) : ∃ r, latestBy (a :: t) = some r := by
  cases hl : latestBy t with
  | none =>
    refine ⟨a, ?_⟩
    rw [latestBy_cons, hl]
  | some b =>
    by_cases hc : a.created_at < b.created_at
    · refine ⟨b, ?_⟩
      rw [latestBy_cons, hl]
      exact if_pos hc
    · refine ⟨a, ?_⟩
      rw [latestBy_cons, hl]
      exact if_neg hc

/-- After an upsert, selecting by the upserted name returns a row carrying
exactly the upserted payload columns. -/
theorem retrieve_upsert (store : List Row) (d : Row) :
    ∃ row, retrieve_course_data (upsertRow store d) d.course_name = some row ∧
      row.course_name = d.course_name ∧ row.summary = d.summary ∧
      row.messages = d.messages ∧ row.date = d.date := by
  unfold retrieve_course_data upsertRow
  by_cases hany : store.any (fun r => r.course_name == d.course_name)
  · rw [if_pos hany]
    set f : Row → Row := fun r =>
      if r.course_name == d.course_name then { d with created_at := r.created_at } else r with hf
    have hall : ∀ x ∈ (store.map f).filter (fun r => r.course_name == d.course_name),
        x.course_name = d.course_name ∧ x.summary = d.summary ∧
        x.messages = d.messages ∧ x.date = d.date := by
      intro x hx
      rw [List.mem_filter] at hx
      obtain ⟨hm, hp⟩ := hx
      rw [List.mem_map] at hm
      obtain ⟨r, _, hfr⟩ := hm
      by_cases hr : r.course_name == d.course_name
      · rw [hf] at hfr
        simp only [hr, if_true] at hfr
        rw [← hfr]
        exact ⟨rfl, rfl, rfl, rfl⟩
      · rw [hf] at hfr
        simp only [hr, if_false] at hfr
        rw [← hfr] at hp
        exact absurd hp (by simpa using hr)
    have hne : (store.map f).filter (fun r => r.course_name == d.course_name) ≠ [] := by
      rw [List.any_eq_true] at hany
      obtain ⟨r, hrmem, hr⟩ := hany
      have hmem : f r ∈ store.map f := List.mem_map_of_mem f hrmem
      have hpred : (f r).course_name == d.course_name := by
        rw [hf]
        simp only [hr, if_true]
        simp
      intro hnil
      have : f r ∈ (store.map f).filter (fun r => r.course_name == d.course_name) :=
        List.mem_filter.mpr ⟨hmem, hpred⟩
      rw [hnil] at this
      simp at this
    obtain ⟨a, t, hcons⟩ := List.exists_cons_of_ne_nil hne
    rw [hcons]
    obtain ⟨row, hrow⟩ := latestBy_cons_isSome a t
    refine ⟨row, hrow, ?_⟩
    have hmemf : row ∈ (store.map f).filter (fun r => r.course_name == d.course_name) := by
      rw [hcons]
      exact latestBy_mem hrow
    exact hall row hmemf
  · rw [if_neg hany]
    have hstore : store.filter (fun r => r.course_name == d.course_name) = [] := by
      rw [List.filter_eq_nil_iff]
      intro a ha
      rw [List.any_eq_true] at hany
      push_neg at hany
      intro hp
      exact hany a ha hp
    rw [List.filter_append, hstore, List.nil_append]
    have hone : List.filter (fun r => r.course_name == d.course_name) [d] = [d] := by
      simp
    rw [hone]
    exact Exists.intro d ⟨rfl, rfl, rfl, rfl, rfl⟩

/-! ## Helper lemmas for string concatenation -/

theorem str_append_assoc (a b c : String) : (a ++ b) ++ c = a ++ (b ++ c) := by
  cases a; cases b; cases c
  show String.mk _ = String.mk _
  simp [String.append]

/-! ## The claims -/

/-- C1: for every course name and record, `Save(n, summary, messages)`
followed immediately by `Load(n)` yields a loaded session whose `summary`
and `messages` equal what was saved; the stored row carries `messages` as
the JSON string `json.dumps(messages)`, which `json.loads` decodes back on
load. -/
theorem save_load_roundtrip (store : List Row) (n su : String) (msgs : List Msg)
    (today : String) (now : Nat) (st : SessionState) :
    (loadCourse (save_to_db store n su msgs today now).1 n st).2 = LoadResult.loaded ∧
    (loadCourse (save_to_db store n su msgs today now).1 n st).1.summary = su ∧
    (loadCourse (save_to_db store n su msgs today now).1 n st).1.messages = msgs ∧
    ∃ row, retrieve_course_data (save_to_db store n su msgs today now).1 n = some row ∧
      row.messages = RawMessages.str (json_dumps msgs) := by
  obtain ⟨row, hret, hcn, hsu, hmsg, hdate⟩ :=
    retrieve_upsert store ⟨n, su, .str (json_dumps msgs), today, now⟩
  have hret' : retrieve_course_data (save_to_db store n su msgs today now).1 n = some row := hret
  have hdec : decodeMessages row.messages = some msgs := by
    rw [hmsg]
    exact json_loads_dumps msgs
  refine ⟨?_, ?_, ?_, row, hret', hmsg⟩ <;>
    simp [loadCourse, hret', hdec, hsu]

/-- C2 counterexample: deleting course `"X"` while the active course is
`"General"` still clears the session's `messages` and `summary` — the claim
that a non-active delete leaves them unchanged is false on the code. -/
theorem delete_nonactive_clears_cex :
    ("X" : String) ≠ "General" ∧
    (deleteCourseClick [⟨"X", "s", RawMessages.list [], "2024-01-01", 0⟩] "General" "X"
      ⟨[⟨"user", "hi"⟩], "S1", []⟩).2.messages ≠ [⟨"user", "hi"⟩] ∧
    (deleteCourseClick [⟨"X", "s", RawMessages.list [], "2024-01-01", 0⟩] "General" "X"
      ⟨[⟨"user", "hi"⟩], "S1", []⟩).2.summary ≠ "S1" := by
  refine ⟨by decide, by decide, by decide⟩

/-- C2 (amended): the Delete Course handler removes the selected course's
rows and unconditionally clears the active session's `messages` and
`summary`, whether or not the deleted course is the active one. -/
theorem delete_clears_session_unconditionally (store : List Row)
    (active selected : String) (st : SessionState) :
    deleteCourseClick store active selected st =
      (store.filter (fun r => !(r.course_name == selected)),
       { st with summary := "", messages := [] }) := rfl

/-- C3 counterexample: with both `summary` and `messages` empty, a Save
Course click still performs the store write (the empty record is upserted)
and reports success — there is no emptiness no-op and no warning. -/
theorem save_empty_still_writes_cex :
    (saveCourseClick [] "General" ⟨[], "", []⟩ "2024-01-01" 0).1 ≠ [] ∧
    (saveCourseClick [] "General" ⟨[], "", []⟩ "2024-01-01" 0).1 =
      [⟨"General", "", RawMessages.str "[]", "2024-01-01", 0⟩] ∧
    (saveCourseClick [] "General" ⟨[], "", []⟩ "2024-01-01" 0).2 = SaveNote.info := by
  refine ⟨by decide, by decide, by decide⟩

/-- C3 (amended): the Save Course handler always upserts the record built
from the session's `summary` and `messages` — even when both are empty —
and reports the store's success/failure flag; it performs no emptiness
check. -/
theorem save_always_writes (store : List Row) (name : String) (st : SessionState)
    (today : String) (now : Nat) :
    saveCourseClick store name st today now =
      (upsertRow store ⟨name, st.summary, RawMessages.str (json_dumps st.messages), today, now⟩,
       SaveNote.info) := rfl

/-- C4: summarizing two files whose extracted texts are `A` and `B` sends
the single prompt `A ++ "\n" ++ B ++ "\n" ++ PROMPT` to the Completion
Client — file order preserved, newline separator, fixed prompt last. -/
theorem summarize_prompt_exact (A B : String) (respond : String → String)
    (st : SessionState) :
    (summarizeClick [[A], [B]] respond st).promptSent =
      A ++ "\n" ++ B ++ "\n" ++ PROMPT := by
  show extractAllText [[A], [B]] ++ PROMPT = _
  rw [show extractAllText [[A], [B]] = ("" ++ (A ++ "\n")) ++ (B ++ "\n") from rfl,
    String.empty_append]
  simp only [str_append_assoc]

/-- C5: a summarize action overwrites only `summary` (with the Completion
Client's response to the assembled prompt); the session's `messages` list
is left unchanged. -/
theorem summarize_messages_unchanged (files : List (List String))
    (respond : String → String) (st : SessionState) :
    (summarizeClick files respond st).state.messages = st.messages ∧
    (summarizeClick files respond st).state.summary =
      respond (extractAllText files ++ PROMPT) :=
  ⟨rfl, rfl⟩

/-- C6 counterexample: a concrete summarize action performs no file write
at all — in particular `history.json` is not among its write targets, so
the claim that every summarize action writes the fallback transcript file
is false on this version of the code. -/
theorem summarize_no_transcript_write_cex :
    "history.json" ∉ ((summarizeClick [["A"]] (fun _ => "S") ⟨[], "", []⟩).writes.map
      Prod.fst) := by
  decide

/-- C6 (amended): `history.json` is only read at startup — its decoded
contents (empty when the file is absent) seed the chat session — and the
summarize action performs no file write. -/
theorem transcript_file_only_read_at_startup :
    (∀ files respond st, (summarizeClick files respond st).writes = []) ∧
    initChatHistory none = [] ∧ (∀ h, initChatHistory (some h) = h) :=
  ⟨fun _ _ _ => rfl, rfl, fun _ => rfl⟩

/-- C7: loading a course name that no stored row carries signals the
absent result and leaves the session state (messages, summary, chat
session history) entirely unchanged. -/
theorem load_absent_state_unchanged (store : List Row) (n : String) (st : SessionState)
    (h : ∀ r ∈ store, r.course_name ≠ n) :
    loadCourse store n st = (st, LoadResult.absent) := by
  have hfil : store.filter (fun r => r.course_name == n) = [] := by
    rw [List.filter_eq_nil_iff]
    intro a ha
    simpa using h a ha
  simp [loadCourse, retrieve_course_data, hfil, latestBy]

theorem load_absent_state_unchanged_witness :
    (∀ r ∈ [Row.mk "Algebra" "S1" (RawMessages.list [⟨"user", "hi"⟩]) "2024-01-01" 0],
        r.course_name ≠ "Geometry") ∧
    loadCourse [Row.mk "Algebra" "S1" (RawMessages.list [⟨"user", "hi"⟩]) "2024-01-01" 0]
        "Geometry" ⟨[], "", []⟩ = (⟨[], "", []⟩, LoadResult.absent) :=
  ⟨by decide, load_absent_state_unchanged _ _ _ (by decide)⟩

/-- C8: the role mapping between stored transcript messages and Completion
Client history is its own inverse on the two-element domain: `"user"` maps
to `"user"` and back, `"assistant"` maps to `"model"` and back, and a whole
transcript using only these two roles round-trips losslessly. -/
theorem role_mapping_inverse :
    roleToClient "user" = "user" ∧ roleToClient "assistant" = "model" ∧
    roleToStore "user" = "user" ∧ roleToStore "model" = "assistant" ∧
    ∀ msgs : List Msg, (∀ m ∈ msgs, m.role = "user" ∨ m.role = "assistant") →
      toStoredTranscript (toClientHistory msgs) = msgs := by
  refine ⟨rfl, rfl, rfl, rfl, ?_⟩
  intro msgs h
  induction msgs with
  | nil => rfl
  | cons m t ih =>
    have hrole : roleToStore (roleToClient m.role) = m.role := by
      rcases h m (List.mem_cons_self m t) with hu | ha
      · rw [hu]; decide
      · rw [ha]; decide
    have ht : ∀ x ∈ t, x.role = "user" ∨ x.role = "assistant" :=
      fun x hx => h x (List.mem_cons_of_mem m hx)
    show (⟨roleToStore (roleToClient m.role), m.content⟩ : Msg) ::
        toStoredTranscript (toClientHistory t) = m :: t
    rw [hrole, ih ht]

theorem role_mapping_inverse_witness :
    toStoredTranscript (toClientHistory [⟨"user", "hi"⟩, ⟨"assistant", "yo"⟩]) =
      [⟨"user", "hi"⟩, ⟨"assistant", "yo"⟩] :=
  role_mapping_inverse.2.2.2.2 _ (by decide)

/-- C9: the course-name listing is deduplicated — for every store contents,
including multiple historical rows per name, the returned list has no
duplicates. -/
theorem list_courses_nodup (store : List Row) : (retrieve_all_courses store).Nodup :=
  List.nodup_dedup _

/-- C10: on load, the stored `messages` value is accepted in either shape —
a JSON string is decoded, an already-decoded list is used directly — and in
both cases the session ends up with the decoded message list. -/
theorem load_messages_both_shapes (n su : String) (msgs : List Msg) (d : String)
    (ca : Nat) (st : SessionState) :
    (loadCourse [⟨n, su, RawMessages.str (json_dumps msgs), d, ca⟩] n st).1.messages = msgs ∧
    (loadCourse [⟨n, su, RawMessages.list msgs, d, ca⟩] n st).1.messages = msgs := by
  have hret : ∀ mraw : RawMessages, retrieve_course_data [⟨n, su, mraw, d, ca⟩] n =
      some ⟨n, su, mraw, d, ca⟩ := by
    intro mraw
    unfold retrieve_course_data
    have hfil : List.filter (fun r => r.course_name == n) [Row.mk n su mraw d ca] =
        [Row.mk n su mraw d ca] := by simp
    rw [hfil]
    rfl
  constructor
  · simp [loadCourse, hret, decodeMessages, json_loads_dumps]
  · simp [loadCourse, hret, decodeMessages]
